import Mathlib

/-!
Shallow embedding of `zitrog.py` (the ID3 Tag Retroencoder of the repository), a Python
utility that parses an ID3v2 tag container, filters and transcodes its text
frames into Shift-JIS, and rewrites the container in front of the untouched
audio payload.

Files are modelled as lists of bytes (`List Nat`, each `< 256` for real
inputs); Python strings are modelled as Lean `String`; the interactive
prompt stream is modelled as a list of strings consumed in order; the
process-global `accepted_corrections` dictionary is threaded explicitly as
an association list; Python exceptions are modelled by `PyErr` through
`Except`.

External library behaviour used by the source (the CPython `shift_jis` and
`utf_16` codecs and the `unidecode` transliteration package) is modelled by
executable functions faithful to those libraries on the character ranges
exercised here: ASCII and halfwidth katakana plus a small table of two-byte
Shift-JIS characters, and an ASCII-producing transliteration table.
-/

/-- Python exceptions raised by the modelled code paths.  The taxonomy names of the spec map onto these: `invalidContainer` is the magic-mismatch
raise, `unicodeDecodeError` the fatal frame decode failure,
`unicodeEncodeError` an encode of unmappable text, `valueError` the
`int("", 2)` failure on an empty size field, `nameError` a reference to an
undefined variable, `eofError` an `input()` with no data left, and
`fuelOut` is an artefact of the fuel-bounded loop model, never reached on
inputs the fuel bound covers. -/
inductive PyErr where
  | valueError
  | invalidContainer
  | unicodeDecodeError
  | unicodeEncodeError
  | nameError
  | eofError
  | fuelOut
deriving DecidableEq

/-- Model of `int.from_bytes(bs, "big")`. -/
def beBytesToNat (bs : List Nat) : Nat :=
  bs.foldl (fun acc b => acc * 256 + b) 0

/-- Model of `n.to_bytes(4, "big")` (Python raises `OverflowError` for `n ≥ 2^32`;
the payloads written here are far below that). -/
def natToBe4 (n : Nat) : List Nat :=
  [n / 2 ^ 24 % 256, n / 2 ^ 16 % 256, n / 2 ^ 8 % 256, n % 256]

/-- Synchsafe decode, from `read_id3` lines 131-136: the source formats
each size byte as 8 binary digits, drops the first digit, joins the
7-digit groups and reparses the result as a binary integer — so each byte
contributes its low 7 bits, most-significant byte first.  Defined on any
number of bytes, exactly as the join in the source is. -/
def synchsafeDecode (bs : List Nat) : Nat :=
  bs.foldl (fun acc b => acc * 128 + b % 128) 0

/-- Synchsafe encode, from `write_id3` lines 287-294: the source formats
the length as a 28-digit binary string, wraps it into 7-digit groups,
left-pads every group with a zero digit, reparses the 32-bit result and
writes it as 4 big-endian bytes.  For `n < 2 ^ 28` that textual algorithm
is exactly the arithmetic below; at or above `2 ^ 28` the source mangles
or overflows (the spec flags this as a latent defect and keeps it out of
scope). -/
def synchsafeEncode (n : Nat) : List Nat :=
  [n / 2 ^ 21 % 128, n / 2 ^ 14 % 128, n / 2 ^ 7 % 128, n % 128]

/-- Model of `bytes.decode("ISO-8859-1")`: total, each byte becomes the character
with the same code point. -/
def latin1Decode (bs : List Nat) : String :=
  ⟨bs.map (fun b => Char.ofNat (b % 256))⟩

/-- Model of `str.encode("ISO-8859-1")` (Python raises for code points ≥ 256; the
strings encoded here come from parsed bytes, all < 256). -/
def latin1Encode (s : String) : List Nat :=
  s.data.map Char.toNat

/-- Python slice `l[a:-b]` for `a, b ≥ 1`: drop `a` from the front and `b`
from the back, empty when the list is too short. -/
def pySlice (l : List Nat) (a b : Nat) : List Nat :=
  (l.drop a).take (l.length - a - b)

/-- Model of the CPython `shift_jis` codec: the two-byte rows used in this
development.  Values are the real Shift-JIS code units. -/
def sjisTable : List (Char × List Nat) :=
  [('あ', [0x82, 0xA0]), ('ア', [0x83, 0x41]), ('一', [0x88, 0xEA])]

/-- Model of the CPython `shift_jis` per-character encode: ASCII maps to the
identical single byte, halfwidth katakana U+FF61–U+FF9F to 0xA1–0xDF, the
tabled characters to their two-byte code units; everything else is
unmappable (`UnicodeEncodeError` in Python). -/
def sjisEncodeChar (c : Char) : Option (List Nat) :=
  if c.toNat < 0x80 then some [c.toNat]
  else if 0xFF61 ≤ c.toNat ∧ c.toNat ≤ 0xFF9F then some [c.toNat - 0xFF61 + 0xA1]
  else sjisTable.lookup c

/-- Character-wise Shift-JIS encode of a character list (the codec is
stateless, so a string encodes exactly when each character does). -/
def sjisEncodeChars : List Char → Option (List Nat)
  | [] => some []
  | c :: cs =>
    match sjisEncodeChar c, sjisEncodeChars cs with
    | some b, some bs => some (b ++ bs)
    | _, _ => none

/-- Model of `str.encode("Shift-JIS")`, `none` when Python raises
`UnicodeEncodeError`. -/
def sjisEncodeString (s : String) : Option (List Nat) :=
  sjisEncodeChars s.data

/-- Model of the CPython `shift_jis` decode, the partial inverse of
`sjisEncodeChar`: bytes outside the modelled ranges (for instance 0x80,
which the real codec also rejects) fail. -/
def sjisDecodeChars : List Nat → Option (List Char)
  | [] => some []
  | [b] =>
    if b < 0x80 then (sjisDecodeChars []).map (fun cs => Char.ofNat b :: cs)
    else if 0xA1 ≤ b ∧ b ≤ 0xDF then
      (sjisDecodeChars []).map (fun cs => Char.ofNat (0xFF61 + b - 0xA1) :: cs)
    else none
  | b :: b2 :: rest2 =>
    if b < 0x80 then (sjisDecodeChars (b2 :: rest2)).map (fun cs => Char.ofNat b :: cs)
    else if 0xA1 ≤ b ∧ b ≤ 0xDF then
      (sjisDecodeChars (b2 :: rest2)).map (fun cs => Char.ofNat (0xFF61 + b - 0xA1) :: cs)
    else
      match sjisTable.find? (fun e => e.2 == [b, b2]) with
      | some e => (sjisDecodeChars rest2).map (fun cs => e.1 :: cs)
      | none => none

/-- Payload bytes round-trip through the target encoding without error:
they decode under Shift-JIS and re-encode to the same bytes. -/
def sjisRoundTrips (bs : List Nat) : Bool :=
  match sjisDecodeChars bs with
  | some cs => sjisEncodeChars cs == some bs
  | none => false

/-- Model of the `unidecode` package on the characters used here: ASCII is
returned unchanged, tabled characters give their real `unidecode`
transliterations, anything else gives `""` (the package output is always
ASCII-only). -/
def unidecodeTable : List (Char × String) :=
  [('é', "e"), ('è', "e"), ('ö', "o"), ('ß', "ss"), ('あ', "a"), ('カ', "ka")]

/-- `unidecode(char)` for a single character. -/
def unidecodeChar (c : Char) : String :=
  if c.toNat < 0x80 then String.singleton c
  else ((unidecodeTable.lookup c).getD "")

/-- UTF-16 code-unit sequence to characters; surrogate pairs are combined,
lone surrogates fail (as the strict CPython `utf_16` decoder does). -/
def utf16DecodeUnits : List Nat → Option (List Char)
  | [] => some []
  | u :: rest =>
    if u < 0xD800 ∨ 0xE000 ≤ u then
      (utf16DecodeUnits rest).map (fun cs => Char.ofNat u :: cs)
    else if u ≤ 0xDBFF then
      match rest with
      | [] => none
      | u2 :: rest2 =>
        if 0xDC00 ≤ u2 ∧ u2 ≤ 0xDFFF then
          (utf16DecodeUnits rest2).map
            (fun cs => Char.ofNat (0x10000 + (u - 0xD800) * 0x400 + (u2 - 0xDC00)) :: cs)
        else none
    else none

/-- Pair little-endian bytes into 16-bit units; odd length is the
truncated-data decode error. -/
def bytesToUnitsLE : List Nat → Option (List Nat)
  | [] => some []
  | [_] => none
  | b1 :: b2 :: rest => (bytesToUnitsLE rest).map (fun us => (b1 + 256 * b2) :: us)

/-- Pair big-endian bytes into 16-bit units. -/
def bytesToUnitsBE : List Nat → Option (List Nat)
  | [] => some []
  | [_] => none
  | b1 :: b2 :: rest => (bytesToUnitsBE rest).map (fun us => (b1 * 256 + b2) :: us)

/-- Model of `bytes.decode("UTF-16")`: honour a leading BOM, default to
little-endian without one (the CPython native order on the platforms this
tool targets). -/
def utf16Decode (bs : List Nat) : Except PyErr String :=
  let core : Option (List Nat) → Except PyErr String := fun units? =>
    match units? with
    | none => .error .unicodeDecodeError
    | some us =>
      match utf16DecodeUnits us with
      | some cs => .ok ⟨cs⟩
      | none => .error .unicodeDecodeError
  match bs with
  | 0xFF :: 0xFE :: rest => core (bytesToUnitsLE rest)
  | 0xFE :: 0xFF :: rest => core (bytesToUnitsBE rest)
  | _ => core (bytesToUnitsLE bs)

/-- Result of one `char.encode(ENCODING_SHIFT_JIS)` attempt, as
discriminated by the two `except` arms in
`identify_encode_error_positions`: success, an unmappable-codepoint
`UnicodeEncodeError`, or any other exception. -/
inductive CharEncResult where
  | ok (bs : List Nat)
  | unicodeError
  | otherError
deriving DecidableEq

/-- The per-character encoder the program actually runs: the Shift-JIS
codec model, which fails only with `UnicodeEncodeError`. -/
def sjisCharEnc (c : Char) : CharEncResult :=
  match sjisEncodeChar c with
  | some bs => .ok bs
  | none => .unicodeError

/-- Source function `encode_data(data)`: `ID3_DELIMITER + data.encode(ENCODING_SHIFT_JIS) +
ID3_DELIMITER`, raising when the encode does. -/
def encode_data (data : String) : Except PyErr (List Nat) :=
  match sjisEncodeString data with
  | some bs => .ok (0 :: bs ++ [0])
  | none => .error .unicodeEncodeError

/-- The bytes `encode_data` yields when it succeeds. -/
def encodeDataBytes (data : String) : List Nat :=
  0 :: (sjisEncodeString data).getD [] ++ [0]

/-- Source function `validate_data_encode(data)`: try `encode_data`, `True` on success,
`False` on any exception. -/
def validate_data_encode (data : String) : Bool :=
  (sjisEncodeString data).isSome

/-- Index-threaded worker for `identify_encode_error_positions`.  The bare
`except` arm models lines 95–103 of the source: the f-strings passed to the
diagnostic print reference `data_raw`, `data_is_unicode`, `alt_data_decoded` and
then `initial_encoding_error`, none of which exist in the scope of the
function, so Python raises `NameError` before printing anything and the
original exception is never re-raised. -/
def identifyAux (enc : Char → CharEncResult) : Nat → List Char → Except PyErr (List Nat)
  | _, [] => .ok []
  | i, c :: cs =>
    match enc c with
    | .ok _ => identifyAux enc (i + 1) cs
    | .unicodeError => (identifyAux enc (i + 1) cs).map (fun ps => i :: ps)
    | .otherError => .error .nameError

/-- Source function `identify_encode_error_positions(data)`: collect the indices of the
characters whose individual encode raises `UnicodeEncodeError`; abort on
any other per-character failure (see `identifyAux`). -/
def identify_encode_error_positions (enc : Char → CharEncResult) (data : String) :
    Except PyErr (List Nat) :=
  identifyAux enc 0 data.data

/-- The positions `identify_encode_error_positions` returns under the real
Shift-JIS encoder, as a pure function. -/
def errorPositionsAux : Nat → List Char → List Nat
  | _, [] => []
  | i, c :: cs =>
    match sjisEncodeChar c with
    | some _ => errorPositionsAux (i + 1) cs
    | none => i :: errorPositionsAux (i + 1) cs

/-- Pure form of the error positions of a string under the Shift-JIS
encoder. -/
def errorPositionsOf (data : String) : List Nat :=
  errorPositionsAux 0 data.data

/-- Index-threaded worker for `suggest_data_changes`: keep a character
whose index is not a failing position; otherwise use its transliteration,
or `"_"` when transliteration returns the character unchanged. -/
def suggestAux : Nat → List Char → List Nat → List Char
  | _, [], _ => []
  | i, c :: cs, errs =>
    (if i ∉ errs then [c]
     else
       let d := unidecodeChar c
       if d ≠ String.singleton c then d.data else ['_']) ++ suggestAux (i + 1) cs errs

/-- Source function `suggest_data_changes(data, error_positions)`. -/
def suggest_data_changes (data : String) (errs : List Nat) : String :=
  ⟨suggestAux 0 data.data errs⟩

/-- The process-global `accepted_corrections` dictionary, threaded
explicitly: decoded text mapped to its accepted replacement. -/
abbrev Cache := List (String × String)

/-- Dictionary assignment `accepted_corrections[k] = v`: replace the
binding when the key is present, append otherwise. -/
def cacheStore (c : Cache) (k v : String) : Cache :=
  match List.lookup k c with
  | some _ => c.map (fun kv => if kv.1 == k then (k, v) else kv)
  | none => c ++ [(k, v)]

/-- Every cached replacement encodes cleanly (the code only stores a value
after `encode_data` on it has succeeded). -/
def cacheWF (c : Cache) : Bool :=
  c.all (fun kv => validate_data_encode kv.2)

/-- Cache extension: every binding of the first cache survives, with the
same value, in the second. -/
def CacheExtends (c c' : Cache) : Prop :=
  ∀ k v, List.lookup k c = some v → List.lookup k c' = some v

/-- The `while data_encoded is None` correction loop of `read_id3`
(lines 206–238), with `origText` the original `data_decoded` of the frame
(the cache key), `alt` the current `alt_data_decoded`, and `prompts` the
remaining interactive input lines.  Returns the final `data_encoded`
bytes, the updated cache, and the unconsumed prompts. -/
def resolveLoop (fuel : Nat) (auto : Bool) (origText : String) (cache : Cache) (alt : String)
    (prompts : List String) : Except PyErr (List Nat × Cache × List String) :=
  match fuel with
  | 0 => .error .fuelOut
  | fuel + 1 =>
    if validate_data_encode alt then
      match encode_data alt with
      | .ok bs => .ok (bs, cache, prompts)
      | .error e => .error e
    else
      match identify_encode_error_positions sjisCharEnc alt with
      | .error e => .error e
      | .ok errPos =>
        let suggested := suggest_data_changes alt errPos
        if auto then
          match encode_data suggested with
          | .ok bs => .ok (bs, cacheStore cache origText suggested, prompts)
          | .error e => .error e
        else
          match prompts with
          | [] => .error .eofError
          | p :: ps =>
            let manual := p.trim
            if manual = "" then
              match encode_data suggested with
              | .ok bs => .ok (bs, cacheStore cache origText suggested, ps)
              | .error e => .error e
            else if validate_data_encode manual then
              match encode_data manual with
              | .ok bs => .ok (bs, cacheStore cache origText manual, ps)
              | .error e => .error e
            else resolveLoop fuel auto origText cache manual ps

/-- The Unicode branch of the frame transcoder (lines 201–238): look the
decoded text up in the correction cache (`try`/`except` around the dict
access), then run the correction loop on the working text. -/
def resolveUnicode (auto : Bool) (cache : Cache) (prompts : List String)
    (dataDecoded : String) : Except PyErr (List Nat × Cache × List String) :=
  let alt := (List.lookup dataDecoded cache).getD dataDecoded
  resolveLoop (prompts.length + 1) auto dataDecoded cache alt prompts

/-- One retained frame, as appended to `id3_definition["frames"]`. -/
structure Frame where
  tag : String
  data_flags : List Nat
  data : List Nat
  data_was_converted : Bool
deriving DecidableEq

/-- The `id3_definition` dictionary returned by `read_id3`: the 6 saved
header bytes, the retained frames in on-disk order, and the byte offset at
which the trailing audio payload starts. -/
structure Id3Definition where
  header : List Nat
  frames : List Frame
  content_offset : Nat
deriving DecidableEq

/-- The frame-identifier check of `read_id3` line 158:
`re.search(r"^[A-Z0-9]{4}$", tag_name)` — exactly 4 characters, each an
uppercase ASCII letter or digit. -/
def tagOk (s : String) : Bool :=
  s.length == 4 && s.data.all (fun c => c.isUpper || c.isDigit)

/-- The tuple `DEFAULT_PRESERVED_TAGS` from the source. -/
def DEFAULT_PRESERVED_TAGS : List String :=
  ["TALB", "TPE1", "TPE2", "TCOP", "TPOS", "TCON", "TIT2", "TRCK", "TYER"]

/-- The `while True` frame loop of `read_id3` (lines 152–250).  `rest` is
the file content from the current cursor on; `hdr` and `coff` are the
already-recorded header bytes and content offset; `acc` the frames read so
far.  Reads past end-of-file read short, exactly as the Python `file.read`
does (`List.take`).  The fuel bound is an artefact of the model: the
caller passes `input.length + 1`, which the loop (consuming at least 8
bytes per continuing iteration) never exhausts. -/
def parseFrames (auto : Bool) (preserved : List String) (hdr : List Nat) (coff : Nat) :
    Nat → List Frame → Cache → List String → List Nat →
    Except PyErr (Id3Definition × Cache × List String)
  | 0, _, _, _, _ => .error .fuelOut
  | fuel + 1, acc, cache, prompts, rest =>
    let frameHeader := rest.take 8
    let tagName := latin1Decode (frameHeader.take 4)
    if tagOk tagName = false then .ok (⟨hdr, acc, coff⟩, cache, prompts)
    else
      let dataLength := beBytesToNat (frameHeader.drop 4)
      let dataFlags := (rest.drop 8).take 2
      let dataRaw := ((rest.drop 8).drop 2).take dataLength
      let rest' := ((rest.drop 8).drop 2).drop dataLength
      let dataIsUnicode := dataRaw.take 1 == [1]
      if preserved.contains tagName = false then
        parseFrames auto preserved hdr coff fuel acc cache prompts rest'
      else
        match
          (if dataIsUnicode then utf16Decode (pySlice dataRaw 1 2)
           else .ok (latin1Decode (pySlice dataRaw 1 1))) with
        | .error e => .error e
        | .ok dataDecoded =>
          if dataIsUnicode = false then
            parseFrames auto preserved hdr coff fuel
              (acc ++ [⟨tagName, dataFlags, dataRaw, false⟩]) cache prompts rest'
          else
            match resolveUnicode auto cache prompts dataDecoded with
            | .error e => .error e
            | .ok (dataEncoded, cache', prompts') =>
              parseFrames auto preserved hdr coff fuel
                (acc ++ [⟨tagName, dataFlags, dataEncoded, true⟩]) cache' prompts' rest'

/-- Source function `read_id3(input_path, preserved_tags, automatic_correction, verbose)`
on the byte content of the input file, with the correction cache and the
interactive input lines threaded explicitly.  Mirrors the source order:
the header is read, the size field is parsed (an empty field makes
`int("", 2)` raise `ValueError` before anything else), the magic is
checked, then the frame loop runs from byte 10. -/
def read_id3 (input : List Nat) (preserved : List String) (auto : Bool)
    (cache : Cache) (prompts : List String) :
    Except PyErr (Id3Definition × Cache × List String) :=
  let id3_header := input.take 10
  let id3_identifier := latin1Decode (id3_header.take 3)
  let id3_size_encoded := id3_header.drop 6
  if id3_size_encoded.isEmpty then .error .valueError
  else
    let id3_size := synchsafeDecode id3_size_encoded
    if id3_identifier ≠ "ID3" then .error .invalidContainer
    else
      parseFrames auto preserved (id3_header.take 6) (id3_header.length + id3_size)
        (input.length + 1) [] cache prompts (input.drop 10)

/-- The bytes one frame contributes to `assembled_frames` in `write_id3`
(lines 278–281): identifier, payload length as 4 big-endian bytes, flag
bytes, payload. -/
def frameBytes (f : Frame) : List Nat :=
  latin1Encode f.tag ++ natToBe4 f.data.length ++ f.data_flags ++ f.data

/-- Value of `assembled_frames` after the loop and the `ID3_DELIMITER * 32` buffer
(lines 276–283). -/
def assembledFrames (frames : List Frame) : List Nat :=
  frames.foldl (fun acc f => acc ++ frameBytes f) [] ++ List.replicate 32 0

/-- The bytes `write_id3` puts in the output file (lines 285–299): saved
header, synchsafe-encoded length of the assembled frame block, the block
itself, then the content of the input file from `content_offset` on, copied
verbatim. -/
def write_id3_bytes (d : Id3Definition) (input : List Nat) : List Nat :=
  d.header ++ synchsafeEncode (assembledFrames d.frames).length ++
    assembledFrames d.frames ++ input.drop d.content_offset

/-- C1: synchsafe round trip — for every integer below `2 ^ 28`, decoding
the 4-byte synchsafe encoding (each byte holding 7 bits, most-significant
group first, high bit zero) yields the integer again. -/
theorem synchsafe_round_trip (x : Nat) (h : x < 2 ^ 28) :
    synchsafeDecode (synchsafeEncode x) = x := by
  simp [synchsafeDecode, synchsafeEncode, List.foldl]
  omega

/-- Witness for C1 at a concrete 28-bit value. -/
theorem synchsafe_round_trip_witness :
    212345678 < 2 ^ 28 ∧ synchsafeDecode (synchsafeEncode 212345678) = 212345678 :=
  ⟨by norm_num, synchsafe_round_trip 212345678 (by norm_num)⟩

theorem foldl_append_eq (g : Frame → List Nat) (l : List Frame) (init : List Nat) :
    l.foldl (fun acc f => acc ++ g f) init = init ++ l.flatMap g := by
  induction l generalizing init with
  | nil => simp
  | cons f fs ih => simp [List.foldl, ih]

/-- C7: writer output structure — for every container the writer emits the
6 saved header bytes, the 4-byte synchsafe-encoded size of the assembled
frame block, then the block itself: the frames concatenated in container
order (identifier bytes, payload length as 4 big-endian bytes, flag bytes,
payload bytes) followed by exactly 32 zero bytes of trailing buffer, and
finally the input content from `content_offset`. -/
theorem writer_output_structure (d : Id3Definition) (input : List Nat) :
    write_id3_bytes d input =
      d.header ++
        synchsafeEncode ((d.frames.flatMap frameBytes).length + 32) ++
        (d.frames.flatMap frameBytes ++ List.replicate 32 0) ++
        input.drop d.content_offset := by
  simp [write_id3_bytes, assembledFrames, foldl_append_eq]

theorem parseFrames_ok_meta (auto : Bool) (preserved : List String) (hdr : List Nat) (coff : Nat)
    (fuel : Nat) (acc : List Frame) (cache : Cache) (prompts : List String) (rest : List Nat)
    (d : Id3Definition) (c' : Cache) (p' : List String)
    (h : parseFrames auto preserved hdr coff fuel acc cache prompts rest = .ok (d, c', p')) :
    d.header = hdr ∧ d.content_offset = coff := by
  induction fuel generalizing acc cache prompts rest with
  | zero => simp [parseFrames] at h
  | succ fuel ih =>
    rw [parseFrames] at h
    simp only [] at h
    split at h
    · injection h with h1
      injection h1 with h1 h2
      subst h1
      exact ⟨rfl, rfl⟩
    · split at h
      · exact ih _ _ _ _ h
      · split at h
        · simp at h
        · split at h
          · exact ih _ _ _ _ h
          · split at h
            · simp at h
            · exact ih _ _ _ _ h

/-- C8 counterexample: the empty input has first-3-bytes that do not
decode to "ID3", yet the parser fails with `ValueError` — the size field
is parsed (line 131, an empty field makes `int` raise) before the magic
check at line 146 runs — not with the invalid-container error. -/
theorem short_input_magic_counterexample :
    latin1Decode (List.take 3 ([] : List Nat)) ≠ "ID3" ∧
    read_id3 [] ["TIT2"] false [] [] = .error PyErr.valueError ∧
    PyErr.valueError ≠ PyErr.invalidContainer :=
  ⟨by decide, by rfl, by decide⟩

/-- C8 (amended): for every input of at least 7 bytes whose first 3 bytes
do not decode to "ID3", the parser fails with the invalid-container
error, returning no container.  (Shorter inputs fail earlier, with
`ValueError` from the empty size field — see the counterexample.) -/
theorem invalid_magic_error (input : List Nat) (preserved : List String) (auto : Bool)
    (cache : Cache) (prompts : List String) (h7 : 7 ≤ input.length)
    (hmagic : latin1Decode (input.take 3) ≠ "ID3") :
    read_id3 input preserved auto cache prompts = .error .invalidContainer := by
  have h2 : (input.take 10).take 3 = input.take 3 := by rw [List.take_take]; norm_num
  have h3 : (input.take 10).drop 6 = (input.drop 6).take 4 := by rw [List.drop_take]
  have h4 : ((input.drop 6).take 4).isEmpty = false := by
    rw [List.isEmpty_eq_false]
    intro hc
    have h5 := congrArg List.length hc
    simp at h5
    omega
  unfold read_id3
  simp only []
  rw [h3, h4, h2]
  simp [hmagic]

/-- Witness for C8 on a 7-byte input with a wrong magic. -/
theorem invalid_magic_error_witness :
    7 ≤ List.length [0x58, 0x58, 0x58, 0, 0, 0, 0] ∧
    read_id3 [0x58, 0x58, 0x58, 0, 0, 0, 0] ["TIT2"] false [] [] =
      .error .invalidContainer :=
  ⟨by norm_num,
   invalid_magic_error [0x58, 0x58, 0x58, 0, 0, 0, 0] ["TIT2"] false [] [] (by norm_num)
     (by decide)⟩

/-- C2 counterexample: on the 7-byte input "ID3" 04 00 00 00 the parse
succeeds but records `content_offset = 7`, because the source computes
`len(id3_header) + id3_size` and the header read came back short, while
10 plus the decoded synchsafe size is 10. -/
theorem content_offset_short_header_counterexample :
    read_id3 [0x49, 0x44, 0x33, 4, 0, 0, 0] ["TIT2"] false [] [] =
      .ok (⟨[0x49, 0x44, 0x33, 4, 0, 0], [], 7⟩, [], []) ∧
    (7 : Nat) ≠ 10 + synchsafeDecode (([0x49, 0x44, 0x33, 4, 0, 0, 0].drop 6).take 4) :=
  ⟨by rfl, by decide⟩

/-- C2 (amended): for every input of at least 10 bytes that parses
successfully, `content_offset` equals 10 plus the decoded synchsafe size
from header bytes 6-9, and the writer output ends with exactly the input
bytes from `content_offset` to end of file. -/
theorem trailing_payload_preserved (input : List Nat) (preserved : List String) (auto : Bool)
    (cache : Cache) (prompts : List String) (d : Id3Definition) (c' : Cache) (p' : List String)
    (h10 : 10 ≤ input.length)
    (h : read_id3 input preserved auto cache prompts = .ok (d, c', p')) :
    d.content_offset = 10 + synchsafeDecode ((input.drop 6).take 4) ∧
    (input.drop d.content_offset).isSuffixOf (write_id3_bytes d input) = true := by
  refine ⟨?_, ?_⟩
  · unfold read_id3 at h
    simp only [] at h
    split at h
    · simp at h
    · split at h
      · simp at h
      · have hm := parseFrames_ok_meta _ _ _ _ _ _ _ _ _ _ _ _ h
        rw [hm.2, List.drop_take]
        have hlen : (input.take 10).length = 10 := by simp; omega
        rw [hlen]
  · have hw : write_id3_bytes d input =
        (d.header ++ synchsafeEncode (assembledFrames d.frames).length ++
          assembledFrames d.frames) ++ input.drop d.content_offset := by
      simp [write_id3_bytes]
    rw [hw]
    simp [List.isSuffixOf]

theorem parseFrames_tags (auto : Bool) (preserved : List String) (hdr : List Nat) (coff : Nat)
    (fuel : Nat) (acc : List Frame) (cache : Cache) (prompts : List String) (rest : List Nat)
    (d : Id3Definition) (c' : Cache) (p' : List String)
    (hacc : acc.all (fun f => preserved.contains f.tag) = true)
    (h : parseFrames auto preserved hdr coff fuel acc cache prompts rest = .ok (d, c', p')) :
    d.frames.all (fun f => preserved.contains f.tag) = true := by
  induction fuel generalizing acc cache prompts rest with
  | zero => simp [parseFrames] at h
  | succ fuel ih =>
    rw [parseFrames] at h
    simp only [] at h
    split at h
    · injection h with h1
      injection h1 with h1 h2
      subst h1
      exact hacc
    · rename_i htag
      split at h
      · exact ih _ _ _ _ hacc h
      · rename_i hmem
        have hmem' : preserved.contains (latin1Decode (List.take 4 (List.take 8 rest))) = true := by
          revert hmem
          cases preserved.contains (latin1Decode (List.take 4 (List.take 8 rest))) <;> simp
        split at h
        · simp at h
        · split at h
          · refine ih _ _ _ _ ?_ h
            rw [List.all_append]
            simp only [hacc, Bool.true_and, List.all_cons, List.all_nil, Bool.and_true]
            exact hmem'
          · split at h
            · simp at h
            · refine ih _ _ _ _ ?_ h
              rw [List.all_append]
              simp only [hacc, Bool.true_and, List.all_cons, List.all_nil, Bool.and_true]
              exact hmem'

/-- C5: preservation filter — every frame in a parsed container carries an
identifier from the caller-supplied preservation set; a frame whose
identifier is absent never appears, regardless of flags or payload, and
parsing continues with the next frame. -/
theorem preservation_filter (input : List Nat) (preserved : List String) (auto : Bool)
    (cache : Cache) (prompts : List String) (d : Id3Definition) (c' : Cache) (p' : List String)
    (h : read_id3 input preserved auto cache prompts = .ok (d, c', p')) :
    d.frames.all (fun f => preserved.contains f.tag) = true := by
  unfold read_id3 at h
  simp only [] at h
  split at h
  · simp at h
  · split at h
    · simp at h
    · exact parseFrames_tags _ _ _ _ _ _ _ _ _ _ _ _ (by simp) h

theorem lookup_mem_assoc {α β : Type} [BEq α] [LawfulBEq α] (c : List (α × β)) (k : α) (v : β)
    (h : List.lookup k c = some v) : (k, v) ∈ c := by
  induction c with
  | nil => simp [List.lookup] at h
  | cons kv t ih =>
    rw [List.lookup] at h
    split at h
    · rename_i hbeq
      injection h with h
      subst h
      have hk : k = kv.1 := eq_of_beq hbeq
      subst hk
      simp
    · right
      exact ih h

theorem lookup_append_left_pairs (c d : List (String × String)) (k v : String)
    (h : List.lookup k c = some v) : List.lookup k (c ++ d) = some v := by
  induction c with
  | nil => simp [List.lookup] at h
  | cons kv t ih =>
    rw [List.lookup] at h
    rw [List.cons_append, List.lookup]
    split at h
    · exact h
    · exact ih h

theorem sjisDecodeChars_cons_ascii (b : Nat) (rest : List Nat) (h : b < 0x80) :
    sjisDecodeChars (b :: rest) = (sjisDecodeChars rest).map (fun cs => Char.ofNat b :: cs) := by
  cases rest with
  | nil => rw [sjisDecodeChars.eq_2, if_pos h]
  | cons b2 rest2 => rw [sjisDecodeChars.eq_3, if_pos h]

theorem sjisDecodeChars_cons_kat (b : Nat) (rest : List Nat) (h1 : ¬ b < 0x80)
    (h2 : 0xA1 ≤ b ∧ b ≤ 0xDF) :
    sjisDecodeChars (b :: rest) =
      (sjisDecodeChars rest).map (fun cs => Char.ofNat (0xFF61 + b - 0xA1) :: cs) := by
  cases rest with
  | nil => rw [sjisDecodeChars.eq_2, if_neg h1, if_pos h2]
  | cons b2 rest2 => rw [sjisDecodeChars.eq_3, if_neg h1, if_pos h2]

theorem sjisDecode_encodeChar (c : Char) (cb : List Nat) (h : sjisEncodeChar c = some cb)
    (rest : List Nat) :
    sjisDecodeChars (cb ++ rest) = (sjisDecodeChars rest).map (fun cs => c :: cs) := by
  unfold sjisEncodeChar at h
  split at h
  · rename_i hascii
    injection h with h
    subst h
    rw [List.cons_append, List.nil_append, sjisDecodeChars_cons_ascii _ _ hascii,
      Char.ofNat_toNat]
  · split at h
    · rename_i hascii hkat
      injection h with h
      subst h
      rw [List.cons_append, List.nil_append,
        sjisDecodeChars_cons_kat _ _ (by omega) (by omega)]
      have he : 0xFF61 + (c.toNat - 0xFF61 + 0xA1) - 0xA1 = c.toNat := by omega
      rw [he, Char.ofNat_toNat]
    · rename_i hascii hkat
      simp only [sjisTable, List.lookup] at h
      split at h
      · rename_i hbeq
        have hc : c = 'あ' := eq_of_beq hbeq
        injection h with h
        subst h
        subst hc
        rfl
      · split at h
        · rename_i hbeq
          have hc : c = 'ア' := eq_of_beq hbeq
          injection h with h
          subst h
          subst hc
          rfl
        · split at h
          · rename_i hbeq
            have hc : c = '一' := eq_of_beq hbeq
            injection h with h
            subst h
            subst hc
            rfl
          · simp [List.lookup] at h

theorem sjisDecode_encodeChars (cs : List Char) (bs rest : List Nat)
    (h : sjisEncodeChars cs = some bs) :
    sjisDecodeChars (bs ++ rest) = (sjisDecodeChars rest).map (fun tail => cs ++ tail) := by
  induction cs generalizing bs with
  | nil =>
    rw [sjisEncodeChars] at h
    injection h with h
    subst h
    simp
  | cons c cs ih =>
    rw [sjisEncodeChars] at h
    split at h
    · rename_i cb bs' hc hcs
      injection h with h
      subst h
      rw [List.append_assoc, sjisDecode_encodeChar c cb hc (bs' ++ rest), ih bs' hcs]
      rw [Option.map_map]
      rfl
    · simp at h

theorem sjisEncodeChars_append (xs ys : List Char) (as bs : List Nat)
    (hx : sjisEncodeChars xs = some as) (hy : sjisEncodeChars ys = some bs) :
    sjisEncodeChars (xs ++ ys) = some (as ++ bs) := by
  induction xs generalizing as with
  | nil =>
    rw [sjisEncodeChars] at hx
    injection hx with hx
    subst hx
    simpa using hy
  | cons c cs ih =>
    rw [sjisEncodeChars] at hx
    split at hx
    · rename_i cb as' hc hcs
      injection hx with hx
      subst hx
      rw [List.cons_append, sjisEncodeChars, hc, ih as' hcs]
      simp
    · simp at hx

theorem encode_data_ok_inv (s : String) (bs : List Nat) (h : encode_data s = .ok bs) :
    ∃ enc, sjisEncodeString s = some enc ∧ bs = 0 :: enc ++ [0] := by
  unfold encode_data at h
  split at h
  · rename_i enc henc
    injection h with h
    exact ⟨enc, henc, h.symm⟩
  · simp at h

theorem encodeData_roundTrips (t : String) (enc : List Nat)
    (h : sjisEncodeString t = some enc) : sjisRoundTrips (0 :: enc ++ [0]) = true := by
  have h1 : sjisEncodeChars (t.data ++ [Char.ofNat 0]) = some (enc ++ [0]) :=
    sjisEncodeChars_append _ _ _ _ h (by decide)
  have h2 : sjisEncodeChars (Char.ofNat 0 :: (t.data ++ [Char.ofNat 0])) =
      some (0 :: (enc ++ [0])) := by
    rw [sjisEncodeChars, show sjisEncodeChar (Char.ofNat 0) = some [0] from by decide, h1]
    rfl
  have h3 : sjisDecodeChars ((0 :: enc ++ [0]) ++ []) =
      (sjisDecodeChars []).map (fun tail => (Char.ofNat 0 :: (t.data ++ [Char.ofNat 0])) ++ tail) :=
    sjisDecode_encodeChars _ _ _ h2
  rw [List.append_nil] at h3
  unfold sjisRoundTrips
  rw [h3]
  simp only [sjisDecodeChars, Option.map_some, List.append_nil]
  simp [h2]

theorem resolveLoop_ok_shape (fuel : Nat) (auto : Bool) (orig : String) (cache : Cache)
    (alt : String) (prompts : List String) (bs : List Nat) (c' : Cache) (p' : List String)
    (h : resolveLoop fuel auto orig cache alt prompts = .ok (bs, c', p')) :
    ∃ t enc, sjisEncodeString t = some enc ∧ bs = 0 :: enc ++ [0] := by
  induction fuel generalizing alt prompts with
  | zero => simp [resolveLoop] at h
  | succ fuel ih =>
    rw [resolveLoop] at h
    simp only [] at h
    split at h
    · split at h
      · rename_i bs0 hok
        injection h with h
        injection h with h1 h2
        obtain ⟨enc, henc, hbs⟩ := encode_data_ok_inv _ _ hok
        exact ⟨alt, enc, henc, by rw [← h1, hbs]⟩
      · simp at h
    · split at h
      · simp at h
      · split at h
        · split at h
          · rename_i bs0 hok
            injection h with h
            injection h with h1 h2
            obtain ⟨enc, henc, hbs⟩ := encode_data_ok_inv _ _ hok
            exact ⟨_, enc, henc, by rw [← h1, hbs]⟩
          · simp at h
        · split at h
          · simp at h
          · split at h
            · split at h
              · rename_i bs0 hok
                injection h with h
                injection h with h1 h2
                obtain ⟨enc, henc, hbs⟩ := encode_data_ok_inv _ _ hok
                exact ⟨_, enc, henc, by rw [← h1, hbs]⟩
              · simp at h
            · split at h
              · split at h
                · rename_i bs0 hok
                  injection h with h
                  injection h with h1 h2
                  obtain ⟨enc, henc, hbs⟩ := encode_data_ok_inv _ _ hok
                  exact ⟨_, enc, henc, by rw [← h1, hbs]⟩
                · simp at h
              · exact ih _ _ h

theorem validate_encode_ok (s : String) (h : validate_data_encode s = true) :
    encode_data s = .ok (encodeDataBytes s) := by
  unfold validate_data_encode at h
  unfold encode_data encodeDataBytes
  cases hs : sjisEncodeString s with
  | none => rw [hs] at h; simp at h
  | some enc => simp [hs]

theorem encode_data_ok_validate (s : String) (bs : List Nat) (h : encode_data s = .ok bs) :
    validate_data_encode s = true := by
  obtain ⟨enc, henc, _⟩ := encode_data_ok_inv _ _ h
  unfold validate_data_encode
  rw [henc]
  rfl

theorem resolveLoop_cache (fuel : Nat) (auto : Bool) (orig : String) (cache : Cache)
    (alt : String) (prompts : List String) (bs : List Nat) (c' : Cache) (p' : List String)
    (hnone : List.lookup orig cache = none)
    (h : resolveLoop fuel auto orig cache alt prompts = .ok (bs, c', p')) :
    c' = cache ∨ ∃ v, validate_data_encode v = true ∧ c' = cache ++ [(orig, v)] := by
  induction fuel generalizing alt prompts with
  | zero => simp [resolveLoop] at h
  | succ fuel ih =>
    rw [resolveLoop] at h
    simp only [] at h
    split at h
    · split at h
      · injection h with h
        injection h with h1 h2
        injection h2 with h2 h3
        exact Or.inl h2.symm
      · simp at h
    · split at h
      · simp at h
      · split at h
        · split at h
          · rename_i bs0 hok
            injection h with h
            injection h with h1 h2
            injection h2 with h2 h3
            refine Or.inr ⟨_, encode_data_ok_validate _ _ hok, ?_⟩
            rw [← h2]
            simp [cacheStore, hnone]
          · simp at h
        · split at h
          · simp at h
          · split at h
            · split at h
              · rename_i bs0 hok
                injection h with h
                injection h with h1 h2
                injection h2 with h2 h3
                refine Or.inr ⟨_, encode_data_ok_validate _ _ hok, ?_⟩
                rw [← h2]
                simp [cacheStore, hnone]
              · simp at h
            · split at h
              · split at h
                · rename_i bs0 hok
                  injection h with h
                  injection h with h1 h2
                  injection h2 with h2 h3
                  refine Or.inr ⟨_, encode_data_ok_validate _ _ hok, ?_⟩
                  rw [← h2]
                  simp [cacheStore, hnone]
                · simp at h
              · exact ih _ _ h

theorem cacheExtends_refl (c : Cache) : CacheExtends c c :=
  fun _ _ h => h

theorem cacheWF_mem (cache : Cache) (orig sub : String) (hwf : cacheWF cache = true)
    (hhit : List.lookup orig cache = some sub) : validate_data_encode sub = true := by
  have hmem := lookup_mem_assoc _ _ _ hhit
  have hall := List.all_eq_true.mp hwf
  exact hall (orig, sub) hmem

theorem resolveUnicode_cached (auto : Bool) (cache : Cache) (prompts : List String)
    (orig sub : String) (hwf : cacheWF cache = true)
    (hhit : List.lookup orig cache = some sub) :
    resolveUnicode auto cache prompts orig = .ok (encodeDataBytes sub, cache, prompts) := by
  have hv := cacheWF_mem cache orig sub hwf hhit
  unfold resolveUnicode
  simp only [hhit, Option.getD_some]
  rw [resolveLoop]
  simp only [hv, if_true, validate_encode_ok sub hv]

theorem resolveUnicode_mono (auto : Bool) (cache : Cache) (prompts : List String)
    (orig : String) (bs : List Nat) (c' : Cache) (p' : List String)
    (hwf : cacheWF cache = true)
    (h : resolveUnicode auto cache prompts orig = .ok (bs, c', p')) :
    CacheExtends cache c' ∧ cacheWF c' = true := by
  unfold resolveUnicode at h
  simp only [] at h
  cases hlk : List.lookup orig cache with
  | some v =>
    have hv := cacheWF_mem cache orig v hwf hlk
    rw [hlk] at h
    simp only [Option.getD_some] at h
    rw [resolveLoop] at h
    simp only [hv, if_true, validate_encode_ok v hv] at h
    injection h with h
    injection h with h1 h2
    injection h2 with h2 h3
    rw [← h2]
    exact ⟨cacheExtends_refl cache, hwf⟩
  | none =>
    rw [hlk] at h
    simp only [Option.getD_none] at h
    rcases resolveLoop_cache _ _ _ _ _ _ _ _ _ hlk h with hc | ⟨v, hv, hc⟩
    · rw [hc]
      exact ⟨cacheExtends_refl cache, hwf⟩
    · subst hc
      constructor
      · intro k w hk
        exact lookup_append_left_pairs _ _ _ _ hk
      · unfold cacheWF
        rw [List.all_append]
        unfold cacheWF at hwf
        simp [hwf, hv]

theorem cacheExtends_trans (a b c : Cache) (h1 : CacheExtends a b) (h2 : CacheExtends b c) :
    CacheExtends a c :=
  fun k v hk => h2 k v (h1 k v hk)

theorem resolveUnicode_ok_shape (auto : Bool) (cache : Cache) (prompts : List String)
    (orig : String) (bs : List Nat) (c' : Cache) (p' : List String)
    (h : resolveUnicode auto cache prompts orig = .ok (bs, c', p')) :
    sjisRoundTrips bs = true := by
  unfold resolveUnicode at h
  simp only [] at h
  obtain ⟨t, enc, henc, hbs⟩ := resolveLoop_ok_shape _ _ _ _ _ _ _ _ _ h
  subst hbs
  exact encodeData_roundTrips t enc henc

theorem parseFrames_cache_mono (auto : Bool) (preserved : List String) (hdr : List Nat)
    (coff : Nat) (fuel : Nat) (acc : List Frame) (cache : Cache) (prompts : List String)
    (rest : List Nat) (d : Id3Definition) (c' : Cache) (p' : List String)
    (hwf : cacheWF cache = true)
    (h : parseFrames auto preserved hdr coff fuel acc cache prompts rest = .ok (d, c', p')) :
    CacheExtends cache c' ∧ cacheWF c' = true := by
  induction fuel generalizing acc cache prompts rest with
  | zero => simp [parseFrames] at h
  | succ fuel ih =>
    rw [parseFrames] at h
    simp only [] at h
    split at h
    · injection h with h
      injection h with h1 h2
      injection h2 with h2 h3
      rw [← h2]
      exact ⟨cacheExtends_refl cache, hwf⟩
    · split at h
      · exact ih _ _ _ _ hwf h
      · split at h
        · simp at h
        · split at h
          · exact ih _ _ _ _ hwf h
          · split at h
            · simp at h
            · rename_i hres
              have hm := resolveUnicode_mono _ _ _ _ _ _ _ hwf hres
              have hrest := ih _ _ _ _ hm.2 h
              exact ⟨cacheExtends_trans _ _ _ hm.1 hrest.1, hrest.2⟩

theorem parseFrames_converted_roundtrip (auto : Bool) (preserved : List String)
    (hdr : List Nat) (coff : Nat) (fuel : Nat) (acc : List Frame) (cache : Cache)
    (prompts : List String) (rest : List Nat) (d : Id3Definition) (c' : Cache)
    (p' : List String)
    (hacc : acc.all (fun f => !f.data_was_converted || sjisRoundTrips f.data) = true)
    (h : parseFrames auto preserved hdr coff fuel acc cache prompts rest = .ok (d, c', p')) :
    d.frames.all (fun f => !f.data_was_converted || sjisRoundTrips f.data) = true := by
  induction fuel generalizing acc cache prompts rest with
  | zero => simp [parseFrames] at h
  | succ fuel ih =>
    rw [parseFrames] at h
    simp only [] at h
    split at h
    · injection h with h
      injection h with h1 h2
      subst h1
      exact hacc
    · split at h
      · exact ih _ _ _ _ hacc h
      · split at h
        · simp at h
        · split at h
          · refine ih _ _ _ _ ?_ h
            rw [List.all_append]
            simp only [hacc, Bool.true_and, List.all_cons, List.all_nil, Bool.and_true]
            rfl
          · split at h
            · simp at h
            · rename_i hres
              refine ih _ _ _ _ ?_ h
              rw [List.all_append]
              simp only [hacc, Bool.true_and, List.all_cons, List.all_nil, Bool.and_true]
              have := resolveUnicode_ok_shape _ _ _ _ _ _ _ hres
              simp [this]

theorem identifyAux_sjis (cs : List Char) (i : Nat) :
    identifyAux sjisCharEnc i cs = .ok (errorPositionsAux i cs) := by
  induction cs generalizing i with
  | nil => rfl
  | cons c cs ih =>
    rw [identifyAux, errorPositionsAux]
    cases he : sjisEncodeChar c with
    | some cb => simp [sjisCharEnc, he, ih]
    | none => simp [sjisCharEnc, he, ih, Except.map]

theorem ascii_chars_encode (cs : List Char) (h : ∀ c ∈ cs, c.toNat < 0x80) :
    (sjisEncodeChars cs).isSome = true := by
  induction cs with
  | nil => rfl
  | cons c cs ih =>
    rw [sjisEncodeChars]
    have hc : sjisEncodeChar c = some [c.toNat] := by
      unfold sjisEncodeChar
      rw [if_pos (h c (by simp))]
    rw [hc]
    have hrest := ih (fun c2 hc2 => h c2 (by simp [hc2]))
    cases hcs : sjisEncodeChars cs with
    | none => rw [hcs] at hrest; simp at hrest
    | some bs => rfl

theorem encodeChars_append_isSome (xs ys : List Char)
    (hx : (sjisEncodeChars xs).isSome = true) (hy : (sjisEncodeChars ys).isSome = true) :
    (sjisEncodeChars (xs ++ ys)).isSome = true := by
  obtain ⟨as, has⟩ := Option.isSome_iff_exists.mp hx
  obtain ⟨bs, hbs⟩ := Option.isSome_iff_exists.mp hy
  rw [sjisEncodeChars_append xs ys as bs has hbs]
  rfl

theorem unidecode_ascii (c : Char) (c2 : Char) (h : c2 ∈ (unidecodeChar c).data) :
    c2.toNat < 0x80 := by
  unfold unidecodeChar at h
  split at h
  · rename_i hascii
    have : (String.singleton c).data = [c] := rfl
    rw [this] at h
    simp at h
    subst h
    exact hascii
  · cases hlk : List.lookup c unidecodeTable with
    | none => rw [hlk] at h; simp at h
    | some v =>
      rw [hlk] at h
      simp only [Option.getD_some] at h
      have hmem : (c, v) ∈ unidecodeTable := lookup_mem_assoc _ _ _ hlk
      have hall : ∀ kv ∈ unidecodeTable, ∀ c2 ∈ kv.2.data, c2.toNat < 0x80 := by decide
      exact hall _ hmem _ h

theorem suggestAux_encodes (cs : List Char) (i : Nat) (E : List Nat)
    (hE : ∀ j, j ∈ errorPositionsAux i cs → j ∈ E) :
    (sjisEncodeChars (suggestAux i cs E)).isSome = true := by
  induction cs generalizing i with
  | nil => rfl
  | cons c cs ih =>
    rw [suggestAux]
    apply encodeChars_append_isSome
    · by_cases hmem : i ∈ E
      · rw [if_neg (by simp [hmem])]
        simp only []
        split
        · exact ascii_chars_encode _ (fun c2 hc2 => unidecode_ascii c c2 hc2)
        · decide
      · rw [if_pos hmem]
        cases he : sjisEncodeChar c with
        | none =>
          exfalso
          apply hmem
          apply hE
          rw [errorPositionsAux, he]
          simp
        | some cb =>
          rw [sjisEncodeChars, he]
          rfl
    · refine ih (i + 1) (fun j hj => hE j ?_)
      rw [errorPositionsAux]
      cases he : sjisEncodeChar c with
      | some cb => exact hj
      | none => simp [hj]

theorem suggestion_encodes (s : String) :
    validate_data_encode (suggest_data_changes s (errorPositionsOf s)) = true := by
  unfold validate_data_encode sjisEncodeString suggest_data_changes errorPositionsOf
  exact suggestAux_encodes s.data 0 (errorPositionsAux 0 s.data) (fun j hj => hj)

theorem auto_one_round (fuel : Nat) (orig : String) (cache : Cache) (alt : String)
    (prompts : List String) (h : validate_data_encode alt = false) :
    resolveLoop (fuel + 1) true orig cache alt prompts =
      .ok (encodeDataBytes (suggest_data_changes alt (errorPositionsOf alt)),
        cacheStore cache orig (suggest_data_changes alt (errorPositionsOf alt)), prompts) := by
  rw [resolveLoop]
  simp only []
  rw [if_neg (by simp [h])]
  have hid : identify_encode_error_positions sjisCharEnc alt = .ok (errorPositionsOf alt) :=
    identifyAux_sjis alt.data 0
  rw [hid]
  simp only [if_true]
  rw [validate_encode_ok _ (suggestion_encodes alt)]

theorem read_id3_cache_mono (input : List Nat) (preserved : List String) (auto : Bool)
    (cache : Cache) (prompts : List String) (d : Id3Definition) (c' : Cache)
    (p' : List String) (hwf : cacheWF cache = true)
    (h : read_id3 input preserved auto cache prompts = .ok (d, c', p')) :
    CacheExtends cache c' ∧ cacheWF c' = true := by
  unfold read_id3 at h
  simp only [] at h
  split at h
  · simp at h
  · split at h
    · simp at h
    · exact parseFrames_cache_mono _ _ _ _ _ _ _ _ _ _ _ _ hwf h

/-- C4: correction caching — over a well-formed cache (every stored value
encodes cleanly, which every store guarantees), a decoded text present in
the cache resolves immediately to the cached substitute, consuming no
prompts and leaving the cache unchanged, for every later frame with that
text; and a whole-file parse only ever extends the cache — no binding is
removed or overwritten — preserving well-formedness across files of a
run. -/
theorem correction_caching (cache : Cache) (orig sub : String) (auto : Bool)
    (prompts : List String) (hwf : cacheWF cache = true)
    (hhit : List.lookup orig cache = some sub) :
    resolveUnicode auto cache prompts orig = .ok (encodeDataBytes sub, cache, prompts) ∧
    (∀ input preserved auto2 cache2 prompts2 d c2 p2, cacheWF cache2 = true →
      read_id3 input preserved auto2 cache2 prompts2 = .ok (d, c2, p2) →
      CacheExtends cache2 c2 ∧ cacheWF c2 = true) :=
  ⟨resolveUnicode_cached auto cache prompts orig sub hwf hhit,
   fun _ _ _ _ _ _ _ _ hwf2 h2 => read_id3_cache_mono _ _ _ _ _ _ _ _ hwf2 h2⟩

/-- Witness for C4: a cached correction resolves with no prompts and no
cache change. -/
theorem correction_caching_witness :
    resolveUnicode true [("café", "cafe")] [] "café" =
      .ok (encodeDataBytes "cafe", [("café", "cafe")], []) :=
  (correction_caching [("café", "cafe")] "café" "cafe" true [] (by decide) (by decide)).1

/-- C3 (amended): every frame that went through the transcoder
(`data_was_converted = true`) has a payload that round-trips through the
target encoding without error; frames whose non-Unicode source bytes are
passed through unchanged are stored without any validation and may be
encoding-invalid (see the counterexample). -/
theorem transcoded_frames_round_trip (input : List Nat) (preserved : List String)
    (auto : Bool) (cache : Cache) (prompts : List String) (d : Id3Definition) (c' : Cache)
    (p' : List String)
    (h : read_id3 input preserved auto cache prompts = .ok (d, c', p')) :
    d.frames.all (fun f => !f.data_was_converted || sjisRoundTrips f.data) = true := by
  unfold read_id3 at h
  simp only [] at h
  split at h
  · simp at h
  · split at h
    · simp at h
    · exact parseFrames_converted_roundtrip _ _ _ _ _ _ _ _ _ _ _ _ (by rfl) h

/-- C3 counterexample: a preserved non-Unicode frame whose raw payload
contains byte 0x80 is stored verbatim with no validation (lines 198-199),
and its payload does not round-trip through Shift-JIS — byte 0x80 is not
decodable.  So a Frame can be constructed with an encoding-invalid
payload. -/
theorem passthrough_frame_not_encoding_valid :
    read_id3 [73, 68, 51, 4, 0, 0, 0, 0, 0, 10,
        84, 73, 84, 50, 0, 0, 0, 4, 0, 0, 0, 128, 65, 0] ["TIT2"] false [] [] =
      .ok (⟨[73, 68, 51, 4, 0, 0], [⟨"TIT2", [0, 0], [0, 128, 65, 0], false⟩], 20⟩, [], []) ∧
    sjisRoundTrips [0, 128, 65, 0] = false :=
  ⟨by rfl, by decide⟩

/-- Witness for C3 (amended): an auto-corrected Unicode frame whose
stored payload round-trips. -/
theorem transcoded_frames_round_trip_witness :
    read_id3 [73, 68, 51, 4, 0, 0, 0, 0, 0, 10,
        84, 73, 84, 50, 0, 0, 0, 13, 0, 0,
        1, 255, 254, 99, 0, 97, 0, 102, 0, 233, 0, 0, 0] ["TIT2"] true [] [] =
      .ok (⟨[73, 68, 51, 4, 0, 0], [⟨"TIT2", [0, 0], [0, 99, 97, 102, 101, 0], true⟩], 20⟩,
        [("café", "cafe")], []) ∧
    [(⟨"TIT2", [0, 0], [0, 99, 97, 102, 101, 0], true⟩ : Frame)].all
      (fun f => !f.data_was_converted || sjisRoundTrips f.data) = true :=
  ⟨by rfl,
   transcoded_frames_round_trip
     [73, 68, 51, 4, 0, 0, 0, 0, 0, 10,
       84, 73, 84, 50, 0, 0, 0, 13, 0, 0,
       1, 255, 254, 99, 0, 97, 0, 102, 0, 233, 0, 0, 0] ["TIT2"] true [] []
     ⟨[73, 68, 51, 4, 0, 0], [⟨"TIT2", [0, 0], [0, 99, 97, 102, 101, 0], true⟩], 20⟩
     [("café", "cafe")] [] (by rfl)⟩

/-- C6: the frame loop stops and returns the container built so far
exactly when the 4-byte identifier does not match 4 uppercase letters or
digits; "1234" is accepted as a valid frame and "T!T2" terminates
parsing normally, returning successfully. -/
theorem frame_iteration_termination :
    (∀ fuel auto preserved hdr coff acc cache prompts rest,
      tagOk (latin1Decode ((List.take 8 rest).take 4)) = false →
      parseFrames auto preserved hdr coff (fuel + 1) acc cache prompts rest =
        .ok (⟨hdr, acc, coff⟩, cache, prompts)) ∧
    tagOk "1234" = true ∧ tagOk "T!T2" = false ∧
    read_id3 [73, 68, 51, 4, 0, 0, 0, 0, 0, 40,
        49, 50, 51, 52, 0, 0, 0, 3, 0, 0, 0, 65, 0] ["1234"] false [] [] =
      .ok (⟨[73, 68, 51, 4, 0, 0], [⟨"1234", [0, 0], [0, 65, 0], false⟩], 50⟩, [], []) ∧
    read_id3 [73, 68, 51, 4, 0, 0, 0, 0, 0, 40,
        84, 33, 84, 50, 0, 0, 0, 3, 0, 0, 0, 65, 0] ["1234"] false [] [] =
      .ok (⟨[73, 68, 51, 4, 0, 0], [], 50⟩, [], []) := by
  refine ⟨?_, by decide, by decide, by rfl, by rfl⟩
  intro fuel auto preserved hdr coff acc cache prompts rest htag
  rw [parseFrames]
  simp only []
  rw [if_pos htag]

/-- Witness for C6: a frame header starting "T!T2" makes the loop return
the container built so far. -/
theorem frame_iteration_termination_witness :
    parseFrames false ["1234"] [1, 2, 3] 99 1 [] [] [] [84, 33, 84, 50, 0, 0, 0, 3, 0, 0] =
      .ok (⟨[1, 2, 3], [], 99⟩, [], []) :=
  frame_iteration_termination.1 0 false ["1234"] [1, 2, 3] 99 [] [] []
    [84, 33, 84, 50, 0, 0, 0, 3, 0, 0] (by decide)

/-- C9: in `identify_encode_error_positions`, a character failing for a
reason other than an unmappable-codepoint condition does NOT produce the
claimed diagnostics-then-re-raise: the source references `data_raw`,
`data_is_unicode`, `alt_data_decoded` and `initial_encoding_error`, none
of which are in scope there, so the run dies with `NameError` before any
diagnostic line prints and the original error is never re-raised.  The
second conjunct shows the `UnicodeEncodeError` path collecting positions
normally. -/
theorem identify_other_error_name_error :
    identify_encode_error_positions (fun _ => CharEncResult.otherError) "x" =
      .error PyErr.nameError ∧
    identify_encode_error_positions (fun _ => CharEncResult.unicodeError) "x" =
      .ok [0] :=
  ⟨rfl, rfl⟩

/-- C10: the suggested replacement (each failing-position character
replaced by its ASCII transliteration or dropped or replaced by an
underscore, other characters kept) always encodes to the target encoding,
so under the automatic policy the correction loop finishes in exactly one
correction round for any non-encoding text, storing the suggestion in the
cache. -/
theorem suggested_replacement_one_round :
    (∀ s : String, validate_data_encode (suggest_data_changes s (errorPositionsOf s)) = true) ∧
    (∀ fuel orig cache alt prompts, validate_data_encode alt = false →
      resolveLoop (fuel + 1) true orig cache alt prompts =
        .ok (encodeDataBytes (suggest_data_changes alt (errorPositionsOf alt)),
          cacheStore cache orig (suggest_data_changes alt (errorPositionsOf alt)), prompts)) :=
  ⟨suggestion_encodes, fun fuel orig cache alt prompts h => auto_one_round fuel orig cache alt prompts h⟩

/-- Witness for C10 on the text "café". -/
theorem suggested_replacement_one_round_witness :
    resolveLoop 1 true "café" [] "café" [] =
      .ok (encodeDataBytes (suggest_data_changes "café" (errorPositionsOf "café")),
        cacheStore [] "café" (suggest_data_changes "café" (errorPositionsOf "café")), []) :=
  suggested_replacement_one_round.2 0 "café" [] "café" [] (by decide)

/-- Witness for C2 (amended) on a 23-byte container with one frame. -/
theorem trailing_payload_preserved_witness :
    (⟨[73, 68, 51, 4, 0, 0], [⟨"TIT2", [0, 0], [0, 65, 0], false⟩], 20⟩ :
        Id3Definition).content_offset =
      10 + synchsafeDecode (([73, 68, 51, 4, 0, 0, 0, 0, 0, 10,
        84, 73, 84, 50, 0, 0, 0, 3, 0, 0, 0, 65, 0].drop 6).take 4) ∧
    ([73, 68, 51, 4, 0, 0, 0, 0, 0, 10,
        84, 73, 84, 50, 0, 0, 0, 3, 0, 0, 0, 65, 0].drop 20).isSuffixOf
      (write_id3_bytes ⟨[73, 68, 51, 4, 0, 0], [⟨"TIT2", [0, 0], [0, 65, 0], false⟩], 20⟩
        [73, 68, 51, 4, 0, 0, 0, 0, 0, 10,
          84, 73, 84, 50, 0, 0, 0, 3, 0, 0, 0, 65, 0]) = true := by
  have h := trailing_payload_preserved
    [73, 68, 51, 4, 0, 0, 0, 0, 0, 10, 84, 73, 84, 50, 0, 0, 0, 3, 0, 0, 0, 65, 0]
    ["TIT2"] false [] []
    ⟨[73, 68, 51, 4, 0, 0], [⟨"TIT2", [0, 0], [0, 65, 0], false⟩], 20⟩ [] []
    (by decide) (by rfl)
  exact ⟨h.1, h.2⟩

/-- Witness for C5: an input holding an unpreserved COMM frame and a
preserved TIT2 frame parses to a container with only the TIT2 frame. -/
theorem preservation_filter_witness :
    read_id3 [73, 68, 51, 4, 0, 0, 0, 0, 0, 40,
        67, 79, 77, 77, 0, 0, 0, 3, 0, 0, 0, 65, 0,
        84, 73, 84, 50, 0, 0, 0, 3, 0, 0, 0, 66, 0] DEFAULT_PRESERVED_TAGS false [] [] =
      .ok (⟨[73, 68, 51, 4, 0, 0], [⟨"TIT2", [0, 0], [0, 66, 0], false⟩], 50⟩, [], []) ∧
    [(⟨"TIT2", [0, 0], [0, 66, 0], false⟩ : Frame)].all
      (fun f => DEFAULT_PRESERVED_TAGS.contains f.tag) = true :=
  ⟨by rfl,
   preservation_filter [73, 68, 51, 4, 0, 0, 0, 0, 0, 40,
       67, 79, 77, 77, 0, 0, 0, 3, 0, 0, 0, 65, 0,
       84, 73, 84, 50, 0, 0, 0, 3, 0, 0, 0, 66, 0] DEFAULT_PRESERVED_TAGS false [] []
     ⟨[73, 68, 51, 4, 0, 0], [⟨"TIT2", [0, 0], [0, 66, 0], false⟩], 50⟩ [] [] (by rfl)⟩
